import Mathlib

/-!
Verification of the node-thread-decorator repository.

The model below is a shallow embedding of the two cooperating units of the
repository: the caller-side dispatcher created by `RunInNewThread` and the
worker-side message handler (`thread.ts`), together with the textual
callable normalizer `toFunctionExpression`.

Strings are modelled as `List Char`; the JavaScript regular-expression
tests used by `toFunctionExpression` are unfolded into explicit decidable
prefix matchers (the two regexes only inspect a prefix of the text, and
their quantifiers `\s+`, `\w*`, `\s*` are followed by characters disjoint
from the repeated class, so greedy maximal munch is exact).
-/

namespace ThreadDecorator

/-- JavaScript whitespace (the ASCII part of `\s` and of `String.prototype.trim`). -/
def isWS (c : Char) : Bool :=
  c == ' ' || c == '\t' || c == '\n' || c == '\r' || c == '\x0b' || c == '\x0c'

/-- The JavaScript regex class `\w`, i.e. `[A-Za-z0-9_]`. -/
def isWordChar (c : Char) : Bool :=
  (97 ≤ c.toNat && c.toNat ≤ 122) || (65 ≤ c.toNat && c.toNat ≤ 90) ||
  (48 ≤ c.toNat && c.toNat ≤ 57) || c == '_'

/-- The class `[a-zA-Z_$]` opening the identifier alternative of the arrow regex. -/
def isIdentStart (c : Char) : Bool :=
  (97 ≤ c.toNat && c.toNat ≤ 122) || (65 ≤ c.toNat && c.toNat ≤ 90) ||
  c == '_' || c == '$'

/-- `startsWithL pre s` : does `s` start with `pre`? -/
def startsWithL : List Char → List Char → Bool
  | [], _ => true
  | _ :: _, [] => false
  | a :: as, b :: bs => a == b && startsWithL as bs

/-- Drop the pattern `t` from the front of `s`, returning the remainder. -/
def dropPre : List Char → List Char → Option (List Char)
  | [], s => some s
  | _ :: _, [] => none
  | a :: as, b :: bs => if a == b then dropPre as bs else none

/-- Leading-whitespace removal (the `\s*` / left half of `trim`). -/
def trimL (s : List Char) : List Char := s.dropWhile isWS

/-- JavaScript `String.prototype.trim` on the ASCII fragment. -/
def trimJS (s : List Char) : List Char := ((trimL s).reverse.dropWhile isWS).reverse

/-- The tail `function[\s(]` of the first regex, anchored at the start of `s`. -/
def matchFunctionAt (s : List Char) : Bool :=
  match dropPre ("function".data) s with
  | some (c :: _) => isWS c || c == '('
  | _ => false

/-- The `async\s+function[\s(]` alternative (the regex's optional group
taken): `async`, at least one whitespace (greedily all of them, which is
exact since `function` starts with a non-space), then `function[\s(]`. -/
def matchAsyncFn (s : List Char) : Bool :=
  match dropPre ("async".data) s with
  | some (c :: rest) => isWS c && matchFunctionAt (trimL rest)
  | _ => false

/-- The regex `/^(async\s+)?function[\s(]/` of `toFunctionExpression`. -/
def matchFnExprRegex (s : List Char) : Bool :=
  matchAsyncFn s || matchFunctionAt s

/-- After the leading identifier character: `\w*\s*=>`. -/
def arrowTail (s : List Char) : Bool :=
  startsWithL ("=>".data) (trimL (s.dropWhile isWordChar))

/-- The regex `/^(\(|[a-zA-Z_$]\w*\s*=>)/` of `toFunctionExpression`. -/
def matchArrowRegex : List Char → Bool
  | [] => false
  | c :: rest => c == '(' || (isIdentStart c && arrowTail rest)

/-- `toFunctionExpression` from `thread.ts`: converts a captured method
source text to a standalone function expression.  Mirrors the source:
trim, return unchanged if already a function expression or arrow function,
otherwise slice from the first `(` (returning unchanged when there is
none) and prepend `function` / `async function`. -/
def toFunctionExpression (code : List Char) : List Char :=
  let trimmed := trimJS code
  if matchFnExprRegex trimmed || matchArrowRegex trimmed then code
  else
    let isAsync := startsWithL ("async ".data) trimmed
    if trimmed.elem '(' then
      let fnBody := trimmed.dropWhile (fun c => !(c == '('))
      (if isAsync then "async function".data else "function".data) ++ fnBody
    else code

example : toFunctionExpression ("add(a, b) \x7b return a + b \x7d".data)
    = ("function(a, b) \x7b return a + b \x7d".data) := by decide

example : toFunctionExpression ("async fetchIt(u) \x7b return u \x7d".data)
    = ("async function(u) \x7b return u \x7d".data) := by decide

example : toFunctionExpression ("(x) => x + 1".data) = ("(x) => x + 1".data) := by decide

example : toFunctionExpression ("function add(a, b) \x7b return a + b \x7d".data)
    = ("function add(a, b) \x7b return a + b \x7d".data) := by decide

example : toFunctionExpression ("x => x".data) = ("x => x".data) := by decide

example : toFunctionExpression ("noParens".data) = ("noParens".data) := by decide

/-! ## Values, errors and the channel protocol -/

/-- Serializable JavaScript values carried over the channel.  `emptyObj`
models the fresh `\x7b\x7d` object the worker uses as `this`-binding. -/
inductive JSValue where
  | undef
  | null
  | num (n : Int)
  | str (s : List Char)
  | boolv (b : Bool)
  | emptyObj
deriving DecidableEq, Repr

/-- The serialized error record the worker posts back:
`\x7b message, stack, name \x7d` (thread.ts, postMessage of the catch branch). -/
structure ErrInfo where
  message : List Char
  stack : Option (List Char)
  name : List Char
deriving DecidableEq, Repr

/-- The single message posted from worker to caller:
either `\x7b success: value \x7d` (error field absent) or `\x7b error: \x7b... \x7d \x7d`
(success field absent, i.e. `undefined`). -/
structure WorkerMsg where
  error : Option ErrInfo
  success : JSValue
deriving DecidableEq, Repr

/-- A caller-side JavaScript `Error` object: message, classification name,
optional stack, and the optional `context` field attached to timeout
errors.  The host-generated stack of a fresh `new Error` is not modelled
(`none`). -/
structure JSError where
  message : List Char
  name : List Char
  stack : Option (List Char)
  context : Option (List Char)
deriving DecidableEq, Repr

/-- `new Error(msg)` with no further field assignments. -/
def mkError (msg : List Char) : JSError :=
  { message := msg, name := "Error".data, stack := none, context := none }

/-- The timeout error built in the `setTimeout` callback of the decorator:
`new Error` with the synthetic message and an `Object.assign`ed `context`
field `"<ClassName>/<methodName>"`. -/
def timeoutError (timeout : Nat) (className methodName : List Char) : JSError :=
  { message := "Worker execution timed out after ".data ++ (Nat.repr timeout).data
      ++ " ms".data,
    name := "Error".data, stack := none,
    context := some (className ++ "/".data ++ methodName) }

/-- The error reconstructed by the `message` handler of the decorator:
`new Error(value.error.message)` followed by assignment of `stack` and `name`. -/
def reconstructError (e : ErrInfo) : JSError :=
  { message := e.message, name := e.name, stack := e.stack, context := none }

/-! ## The Remote Execution Environment (thread.ts message handler) -/

/-- Outcome of the host interpreter running the reconstructed callable:
it either completes with a value or throws/rejects with an error. -/
inductive ExecResult where
  | ok (v : JSValue)
  | thrown (e : JSError)
deriving DecidableEq, Repr

/-- The host evaluator, abstract: given the `this`-binding, the normalized
source text and the arguments, produce the result of
`await (new Function(src))(...)` applied via `fn.apply(thisArg, args)`.
Reconstruction failures surface as `thrown`. -/
def Evaluator : Type := JSValue → List Char → List JSValue → ExecResult

/-- The worker-side `parentPort.on('message')` handler of thread.ts,
for one received task `[fnCode, args]`: normalize the source, run it with
a fresh empty object as `this`, and post exactly one message — success
with the result, or the serialized error fields on any exception. -/
def handleTask (E : Evaluator) (fnCode : List Char) (args : List JSValue) : WorkerMsg :=
  match E JSValue.emptyObj (toFunctionExpression fnCode) args with
  | .ok v => { error := none, success := v }
  | .thrown e => { error := some { message := e.message, stack := e.stack, name := e.name },
                   success := JSValue.undef }

/-- The messages the handler posts for one task (both branches post exactly one). -/
def handleTaskMsgs (E : Evaluator) (fnCode : List Char) (args : List JSValue) :
    List WorkerMsg := [handleTask E fnCode args]

/-! ## The Dispatch & Lifecycle Manager (decorator body) -/

/-- Caller-side state of one in-flight call, lines 27–57 of the decorator:
the settlement latch `isResolved`, whether the deadline timer is armed
(`timeoutId !== null`), how often `cleanup` and `worker.terminate()` have
run, how many tasks were posted to the worker, and the settled value of
the promise (`none` while pending). -/
structure CallState where
  isResolved : Bool
  timerArmed : Bool
  cleanupCount : Nat
  terminateCount : Nat
  sentTasks : Nat
  settled : Option (Sum JSValue JSError)
deriving DecidableEq, Repr

/-- `cleanup`: clear a still-armed timer and terminate the worker. -/
def cleanup (s : CallState) : CallState :=
  { s with timerArmed := false,
           cleanupCount := s.cleanupCount + 1,
           terminateCount := s.terminateCount + 1 }

/-- `resolveOnce`: if not yet settled, latch, clean up and resolve. -/
def resolveOnce (s : CallState) (v : JSValue) : CallState :=
  if s.isResolved then s
  else { cleanup { s with isResolved := true } with settled := some (Sum.inl v) }

/-- `rejectOnce`: if not yet settled, latch, clean up and reject. -/
def rejectOnce (s : CallState) (e : JSError) : CallState :=
  if s.isResolved then s
  else { cleanup { s with isResolved := true } with settled := some (Sum.inr e) }

/-- The events one call's worker context can deliver: a posted message,
the armed deadline firing, a worker `error` event, and worker exit with a
code. -/
inductive Ev where
  | message (m : WorkerMsg)
  | timeoutFire
  | errorEv (e : JSError)
  | exit (code : Int)
deriving DecidableEq, Repr

/-- One step of the dispatcher: how each registered handler reacts to an
event, mirroring the four handlers of the decorator.  The deadline can
only fire while its timer is armed (`timerArmed` is the environment-side
guard for `setTimeout`/`clearTimeout`). -/
def stepC (tOpt : Option Nat) (className methodName : List Char)
    (s : CallState) : Ev → CallState
  | .message m =>
    match m.error with
    | some e => rejectOnce s (reconstructError e)
    | none => resolveOnce s m.success
  | .timeoutFire =>
    if s.timerArmed then
      match tOpt with
      | some t => rejectOnce s (timeoutError t className methodName)
      | none => s
    else s
  | .errorEv e =>
    if e.name = "ReferenceError".data then
      rejectOnce s (mkError ("Reference error in worker: ".data ++ e.message))
    else rejectOnce s e
  | .exit code =>
    if code ≠ 0 ∧ s.isResolved = false then
      rejectOnce s (mkError ("Worker stopped with exit code ".data ++ (Int.repr code).data))
    else s

/-- State right after the synchronous part of the promise executor ran:
one task posted (line 57), latch clear, and the deadline timer armed
exactly when `timeout` is truthy (`if (timeout)` — `undefined` and `0`
are both falsy). -/
def initC (tOpt : Option Nat) : CallState :=
  { isResolved := false,
    timerArmed := match tOpt with | some t => t != 0 | none => false,
    cleanupCount := 0, terminateCount := 0, sentTasks := 1, settled := none }

/-- Run the dispatcher from a state through a sequence of events. -/
def runFrom (tOpt : Option Nat) (className methodName : List Char)
    (s : CallState) : List Ev → CallState
  | [] => s
  | e :: rest => runFrom tOpt className methodName (stepC tOpt className methodName s e) rest

/-- A whole call: start at `initC` and process the delivered events. -/
def runC (tOpt : Option Nat) (className methodName : List Char) (evs : List Ev) : CallState :=
  runFrom tOpt className methodName (initC tOpt) evs

/-! ## The Interception Wrapper (per-instance view) -/

/-- An instance owning a decorated method: the captured source text of the
original method, and private per-instance state that the wrapper never
reads. -/
structure Instance where
  methodSource : List Char
  privateState : List JSValue

/-- The single message the wrapper posts to the worker for one call
(line 57): exactly the pair `[fnCode, args]`. -/
def sentTask (inst : Instance) (args : List JSValue) : List Char × List JSValue :=
  (inst.methodSource, args)

/-- The worker-side behavior for one posted task. -/
def workerRun (E : Evaluator) (t : List Char × List JSValue) : WorkerMsg :=
  handleTask E t.1 t.2

/-! ## Lemmas about the settlement latch -/

lemma resolveOnce_pending (s : CallState) (v : JSValue) (h : s.isResolved = false) :
    resolveOnce s v =
      { isResolved := true, timerArmed := false, cleanupCount := s.cleanupCount + 1,
        terminateCount := s.terminateCount + 1, sentTasks := s.sentTasks,
        settled := some (Sum.inl v) } := by
  cases s
  simp_all [resolveOnce, cleanup]

lemma rejectOnce_pending (s : CallState) (e : JSError) (h : s.isResolved = false) :
    rejectOnce s e =
      { isResolved := true, timerArmed := false, cleanupCount := s.cleanupCount + 1,
        terminateCount := s.terminateCount + 1, sentTasks := s.sentTasks,
        settled := some (Sum.inr e) } := by
  cases s
  simp_all [rejectOnce, cleanup]

lemma resolveOnce_settled (s : CallState) (v : JSValue) (h : s.isResolved = true) :
    resolveOnce s v = s := by
  simp [resolveOnce, h]

lemma rejectOnce_settled (s : CallState) (e : JSError) (h : s.isResolved = true) :
    rejectOnce s e = s := by
  simp [rejectOnce, h]

/-- Once the latch is set, every later event is a strict no-op. -/
lemma stepC_settled (t : Option Nat) (c m : List Char) (s : CallState) (e : Ev)
    (h : s.isResolved = true) : stepC t c m s e = s := by
  cases e with
  | message msg =>
    cases hm : msg.error <;>
      simp [stepC, hm, resolveOnce_settled, rejectOnce_settled, h]
  | timeoutFire =>
    cases t <;> by_cases ha : s.timerArmed <;>
      simp [stepC, ha, rejectOnce_settled, h]
  | errorEv err =>
    by_cases hn : err.name = "ReferenceError".data <;>
      simp [stepC, hn, rejectOnce_settled, h]
  | exit code =>
    simp [stepC, h]

lemma runFrom_settled (t : Option Nat) (c m : List Char) (evs : List Ev) (s : CallState)
    (h : s.isResolved = true) : runFrom t c m s evs = s := by
  induction evs with
  | nil => rfl
  | cons e rest ih => simp [runFrom, stepC_settled t c m s e h, ih]

/-- From a pending state, one step either changes nothing or settles:
latch set, timer cleared, cleanup and terminate run once more, the task
count untouched, and the promise settled. -/
lemma stepC_pending_cases (t : Option Nat) (c m : List Char) (s : CallState) (e : Ev)
    (h : s.isResolved = false) :
    stepC t c m s e = s ∨
    ∃ r, stepC t c m s e =
      { isResolved := true, timerArmed := false, cleanupCount := s.cleanupCount + 1,
        terminateCount := s.terminateCount + 1, sentTasks := s.sentTasks,
        settled := some r } := by
  cases e with
  | message msg =>
    cases hm : msg.error with
    | none =>
      exact Or.inr ⟨Sum.inl msg.success, by simp [stepC, hm, resolveOnce_pending s _ h]⟩
    | some e0 =>
      exact Or.inr ⟨Sum.inr (reconstructError e0), by simp [stepC, hm, rejectOnce_pending s _ h]⟩
  | timeoutFire =>
    by_cases ha : s.timerArmed
    · cases t with
      | none => exact Or.inl (by simp [stepC, ha])
      | some t0 =>
        exact Or.inr ⟨Sum.inr (timeoutError t0 c m), by simp [stepC, ha, rejectOnce_pending s _ h]⟩
    · exact Or.inl (by simp [stepC, ha])
  | errorEv err =>
    by_cases hn : err.name = "ReferenceError".data
    · exact Or.inr ⟨Sum.inr (mkError ("Reference error in worker: ".data ++ err.message)),
        by simp [stepC, hn, rejectOnce_pending s _ h]⟩
    · exact Or.inr ⟨Sum.inr err, by simp [stepC, hn, rejectOnce_pending s _ h]⟩
  | exit code =>
    by_cases hc : code = 0
    · exact Or.inl (by simp [stepC, hc])
    · exact Or.inr ⟨Sum.inr (mkError ("Worker stopped with exit code ".data ++ (Int.repr code).data)),
        by simp [stepC, hc, h, rejectOnce_pending s _ h]⟩

/-- Reachability invariant of one call: while pending no cleanup has run,
once settled cleanup and terminate have run exactly once and the timer is
clear; exactly one task is ever posted. -/
def Inv (s : CallState) : Prop :=
  (s.isResolved = false → s.settled = none ∧ s.cleanupCount = 0 ∧ s.terminateCount = 0) ∧
  (s.isResolved = true → s.settled.isSome = true ∧ s.cleanupCount = 1 ∧
    s.terminateCount = 1 ∧ s.timerArmed = false) ∧
  s.sentTasks = 1

lemma Inv_initC (t : Option Nat) : Inv (initC t) := by
  refine ⟨fun _ => ⟨rfl, rfl, rfl⟩, fun hc => ?_, rfl⟩
  simp [initC] at hc

lemma Inv_stepC (t : Option Nat) (c m : List Char) (s : CallState) (e : Ev)
    (hs : Inv s) : Inv (stepC t c m s e) := by
  by_cases h : s.isResolved = true
  · rw [stepC_settled t c m s e h]; exact hs
  · have h' : s.isResolved = false := by simpa using h
    rcases stepC_pending_cases t c m s e h' with heq | ⟨r, heq⟩
    · rw [heq]; exact hs
    · rw [heq]
      obtain ⟨hpend, _, hsent⟩ := hs
      obtain ⟨_, hcl, hterm⟩ := hpend h'
      exact ⟨fun hf => by simp at hf, fun _ => ⟨rfl, by simp [hcl], by simp [hterm], rfl⟩, hsent⟩

lemma Inv_runFrom (t : Option Nat) (c m : List Char) (evs : List Ev) (s : CallState)
    (hs : Inv s) : Inv (runFrom t c m s evs) := by
  induction evs generalizing s with
  | nil => exact hs
  | cons e rest ih => exact ih _ (Inv_stepC t c m s e hs)

lemma Inv_runC (t : Option Nat) (c m : List Char) (evs : List Ev) :
    Inv (runC t c m evs) :=
  Inv_runFrom t c m evs (initC t) (Inv_initC t)

/-- First-settlement decomposition, generalized over the start state. -/
lemma runFrom_first_settle (t : Option Nat) (c m : List Char) (evs : List Ev)
    (s : CallState) (h : s.isResolved = false) :
    (runFrom t c m s evs).isResolved = false ∨
    ∃ pre e post, evs = pre ++ e :: post ∧
      (runFrom t c m s pre).isResolved = false ∧
      (stepC t c m (runFrom t c m s pre) e).isResolved = true ∧
      runFrom t c m s evs = stepC t c m (runFrom t c m s pre) e ∧
      (∀ pre2 e2 post2, evs = pre2 ++ e2 :: post2 →
        (runFrom t c m s pre2).isResolved = false →
        (stepC t c m (runFrom t c m s pre2) e2).isResolved = true → pre2 = pre) := by
  induction evs generalizing s with
  | nil => exact Or.inl h
  | cons e rest ih =>
    by_cases hstep : (stepC t c m s e).isResolved = true
    · refine Or.inr ⟨[], e, rest, rfl, h, hstep, ?_, ?_⟩
      · show runFrom t c m (stepC t c m s e) rest = _
        exact runFrom_settled t c m rest _ hstep
      · intro pre2 e2 post2 heq2 hpend2 _
        cases pre2 with
        | nil => rfl
        | cons p ps =>
          exfalso
          have hpe : p = e := by
            have := congrArg (fun l => List.head? l) heq2
            simpa using this.symm
          subst hpe
          have : runFrom t c m s (p :: ps) = stepC t c m s p :=
            runFrom_settled t c m ps _ hstep
          rw [this] at hpend2
          rw [hpend2] at hstep
          exact Bool.false_ne_true hstep
    · have hstep' : (stepC t c m s e).isResolved = false := by simpa using hstep
      have hrw : runFrom t c m s (e :: rest) = runFrom t c m (stepC t c m s e) rest := rfl
      rcases ih (stepC t c m s e) hstep' with hleft | ⟨pre, e', post, heq, hpend, hset, hrun, huniq⟩
      · exact Or.inl (by rw [hrw]; exact hleft)
      · refine Or.inr ⟨e :: pre, e', post, by simp [heq], ?_, ?_, ?_, ?_⟩
        · show (runFrom t c m (stepC t c m s e) pre).isResolved = false
          exact hpend
        · exact hset
        · rw [hrw, hrun]; rfl
        · intro pre2 e2 post2 heq2 hpend2 hset2
          cases pre2 with
          | nil =>
            exfalso
            have he2 : e2 = e := by
              have := congrArg (fun l => List.head? l) heq2
              simpa using this.symm
            subst he2
            have : runFrom t c m s ([] : List Ev) = s := rfl
            rw [this] at hset2
            rw [hset2] at hstep'
            exact absurd hstep' (by simp)
          | cons p ps =>
            have hpe : p = e := by
              have := congrArg (fun l => List.head? l) heq2
              simpa using this.symm
            subst hpe
            have htl : rest = ps ++ e2 :: post2 := by
              have := congrArg (fun l => List.tail l) heq2
              simpa using this
            have := huniq ps e2 post2 htl hpend2 hset2
            rw [this]

lemma stepC_timer_false (t : Option Nat) (c m : List Char) (s : CallState) (e : Ev)
    (h : s.timerArmed = false) : (stepC t c m s e).timerArmed = false := by
  by_cases hr : s.isResolved = true
  · rw [stepC_settled t c m s e hr]; exact h
  · have hr' : s.isResolved = false := by simpa using hr
    rcases stepC_pending_cases t c m s e hr' with heq | ⟨r, heq⟩
    · rw [heq]; exact h
    · rw [heq]

lemma stepC_tOpt_irrel (t1 t2 : Option Nat) (c m : List Char) (s : CallState) (e : Ev)
    (h : s.timerArmed = false) : stepC t1 c m s e = stepC t2 c m s e := by
  cases e with
  | message msg => rfl
  | timeoutFire => simp [stepC, h]
  | errorEv err => rfl
  | exit code => rfl

/-! ## Claim theorems -/

/-- C1: for every invocation, the deferred result is settled at most once:
either no event of the trace settles it, or there is a unique first event
that transitions it from pending to settled, and the state after the whole
trace equals the state right after that event — every later message, later
deadline firing and later exit event is discarded as a no-op. -/
theorem settlement_exactly_once (t : Option Nat) (c m : List Char) (evs : List Ev) :
    ((runC t c m evs).settled = none ∧ (runC t c m evs).isResolved = false) ∨
    ∃ pre e post, evs = pre ++ e :: post ∧
      (runC t c m pre).settled = none ∧
      (stepC t c m (runC t c m pre) e).settled.isSome = true ∧
      runC t c m evs = stepC t c m (runC t c m pre) e ∧
      (∀ pre2 e2 post2, evs = pre2 ++ e2 :: post2 →
        (runC t c m pre2).settled = none →
        (stepC t c m (runC t c m pre2) e2).settled.isSome = true → pre2 = pre) := by
  rcases runFrom_first_settle t c m evs (initC t) rfl with
    hleft | ⟨pre, e, post, heq, hpend, hset, hrun, huniq⟩
  · exact Or.inl ⟨((Inv_runC t c m evs).1 hleft).1, hleft⟩
  · refine Or.inr ⟨pre, e, post, heq, ((Inv_runC t c m pre).1 hpend).1, ?_, hrun, ?_⟩
    · exact ((Inv_stepC t c m _ e (Inv_runC t c m pre)).2.1 hset).1
    · intro pre2 e2 post2 h1 h2 h3
      have hb1 : (runC t c m pre2).isResolved = false := by
        cases hb : (runC t c m pre2).isResolved
        · rfl
        · obtain ⟨hsome, _⟩ := (Inv_runC t c m pre2).2.1 hb
          rw [h2] at hsome
          simp at hsome
      have hb2 : (stepC t c m (runC t c m pre2) e2).isResolved = true := by
        cases hb : (stepC t c m (runC t c m pre2) e2).isResolved
        · obtain ⟨hnone, _, _⟩ := (Inv_stepC t c m _ e2 (Inv_runC t c m pre2)).1 hb
          rw [hnone] at h3
          simp at h3
        · rfl
      exact huniq pre2 e2 post2 h1 hb1 hb2

theorem settlement_exactly_once_witness :
    ((runC none ("C".data) ("m".data) [Ev.exit 1]).settled = none ∧
      (runC none ("C".data) ("m".data) [Ev.exit 1]).isResolved = false) ∨
    ∃ pre e post, [Ev.exit 1] = pre ++ e :: post ∧
      (runC none ("C".data) ("m".data) pre).settled = none ∧
      (stepC none ("C".data) ("m".data) (runC none ("C".data) ("m".data) pre) e).settled.isSome
        = true ∧
      runC none ("C".data) ("m".data) [Ev.exit 1]
        = stepC none ("C".data) ("m".data) (runC none ("C".data) ("m".data) pre) e ∧
      (∀ pre2 e2 post2, [Ev.exit 1] = pre2 ++ e2 :: post2 →
        (runC none ("C".data) ("m".data) pre2).settled = none →
        (stepC none ("C".data) ("m".data) (runC none ("C".data) ("m".data) pre2) e2).settled.isSome
          = true → pre2 = pre) :=
  settlement_exactly_once none ("C".data) ("m".data) [Ev.exit 1]

/-- C2: on settlement by any path the deadline timer has been cancelled and
the worker terminated, and this cleanup ran exactly once; while the call is
still pending, no cleanup has run. -/
theorem cleanup_exactly_once (t : Option Nat) (c m : List Char) (evs : List Ev) :
    ((runC t c m evs).settled.isSome = true →
      (runC t c m evs).cleanupCount = 1 ∧ (runC t c m evs).terminateCount = 1 ∧
      (runC t c m evs).timerArmed = false) ∧
    ((runC t c m evs).settled = none →
      (runC t c m evs).cleanupCount = 0 ∧ (runC t c m evs).terminateCount = 0) := by
  obtain ⟨hp, hs, _⟩ := Inv_runC t c m evs
  constructor
  · intro hsome
    have hr : (runC t c m evs).isResolved = true := by
      cases hb : (runC t c m evs).isResolved
      · obtain ⟨hnone, _, _⟩ := hp hb
        rw [hnone] at hsome
        simp at hsome
      · rfl
    obtain ⟨_, h1, h2, h3⟩ := hs hr
    exact ⟨h1, h2, h3⟩
  · intro hnone
    have hr : (runC t c m evs).isResolved = false := by
      cases hb : (runC t c m evs).isResolved
      · rfl
      · obtain ⟨hsome, _⟩ := hs hb
        rw [hnone] at hsome
        simp at hsome
    obtain ⟨_, h1, h2⟩ := hp hr
    exact ⟨h1, h2⟩

theorem cleanup_exactly_once_witness :
    (runC (some 5) ("C".data) ("m".data) [Ev.message ⟨none, JSValue.null⟩]).cleanupCount = 1 ∧
    (runC (some 5) ("C".data) ("m".data) [Ev.message ⟨none, JSValue.null⟩]).terminateCount = 1 ∧
    (runC (some 5) ("C".data) ("m".data) [Ev.message ⟨none, JSValue.null⟩]).timerArmed = false ∧
    (runC (some 5) ("C".data) ("m".data) []).cleanupCount = 0 := by
  have h1 := (cleanup_exactly_once (some 5) ("C".data) ("m".data)
    [Ev.message ⟨none, JSValue.null⟩]).1 (by decide)
  have h2 := (cleanup_exactly_once (some 5) ("C".data) ("m".data) []).2 rfl
  exact ⟨h1.1, h1.2.1, h1.2.2, h2.1⟩

/-- C3: a message arriving before settlement settles the call: if it
carries an error record, the call rejects with an error rebuilt from the
record's message, stack and name; otherwise it resolves with the carried
success value — whatever that value is, `undefined` and `null` included,
since the branch tests only the presence of the error field. -/
theorem message_dispatch_settles (t : Option Nat) (c m : List Char) (s : CallState)
    (msg : WorkerMsg) (h : s.isResolved = false) :
    (∀ e, msg.error = some e →
      (stepC t c m s (Ev.message msg)).settled = some (Sum.inr
        { message := e.message, name := e.name, stack := e.stack, context := none })) ∧
    (msg.error = none →
      (stepC t c m s (Ev.message msg)).settled = some (Sum.inl msg.success)) := by
  constructor
  · intro e he
    simp [stepC, he, rejectOnce_pending s _ h, reconstructError]
  · intro he
    simp [stepC, he, resolveOnce_pending s _ h]

theorem message_dispatch_settles_witness :
    (stepC none ("C".data) ("m".data) (initC none)
        (Ev.message ⟨none, JSValue.undef⟩)).settled = some (Sum.inl JSValue.undef) ∧
    (stepC none ("C".data) ("m".data) (initC none)
        (Ev.message ⟨some ⟨"boom".data, none, "TypeError".data⟩, JSValue.undef⟩)).settled
      = some (Sum.inr ⟨"boom".data, "TypeError".data, none, none⟩) :=
  ⟨(message_dispatch_settles none ("C".data) ("m".data) (initC none)
      ⟨none, JSValue.undef⟩ rfl).2 rfl,
   (message_dispatch_settles none ("C".data) ("m".data) (initC none)
      ⟨some ⟨"boom".data, none, "TypeError".data⟩, JSValue.undef⟩ rfl).1 _ rfl⟩

/-- C4: the armed deadline firing first rejects with exactly
`Worker execution timed out after <N> ms` and context
`<ClassName>/<methodName>`; a non-zero exit before settlement rejects with
exactly `Worker stopped with exit code <N>`; a zero exit code, or any exit
after settlement, changes nothing. -/
theorem synthetic_error_messages (t : Nat) (c m : List Char) (s : CallState) (code : Int) :
    (s.isResolved = false → s.timerArmed = true →
      (stepC (some t) c m s Ev.timeoutFire).settled = some (Sum.inr
        { message := "Worker execution timed out after ".data ++ (Nat.repr t).data
            ++ " ms".data,
          name := "Error".data, stack := none, context := some (c ++ "/".data ++ m) })) ∧
    (s.isResolved = false → code ≠ 0 →
      (stepC (some t) c m s (Ev.exit code)).settled = some (Sum.inr
        { message := "Worker stopped with exit code ".data ++ (Int.repr code).data,
          name := "Error".data, stack := none, context := none })) ∧
    (∀ tOpt : Option Nat, stepC tOpt c m s (Ev.exit 0) = s) ∧
    (∀ tOpt : Option Nat, s.isResolved = true → stepC tOpt c m s (Ev.exit code) = s) := by
  refine ⟨?_, ?_, ?_, ?_⟩
  · intro h ha
    simp [stepC, ha, rejectOnce_pending s _ h, timeoutError]
  · intro h hc
    simp [stepC, hc, h, rejectOnce_pending s _ h, mkError]
  · intro tOpt
    simp [stepC]
  · intro tOpt hr
    simp [stepC, hr]

theorem synthetic_error_messages_witness :
    (stepC (some 100) ("MyService".data) ("slowCall".data) (initC (some 100))
        Ev.timeoutFire).settled
      = some (Sum.inr
          { message := "Worker execution timed out after 100 ms".data,
            name := "Error".data, stack := none,
            context := some ("MyService/slowCall".data) }) ∧
    (stepC (some 100) ("MyService".data) ("slowCall".data) (initC (some 100))
        (Ev.exit 1)).settled
      = some (Sum.inr
          { message := "Worker stopped with exit code 1".data,
            name := "Error".data, stack := none, context := none }) ∧
    stepC (some 100) ("MyService".data) ("slowCall".data) (initC (some 100)) (Ev.exit 0)
      = initC (some 100) := by
  have h := synthetic_error_messages 100 ("MyService".data) ("slowCall".data)
    (initC (some 100)) 1
  refine ⟨?_, ?_, h.2.2.1 (some 100)⟩
  · rw [h.1 rfl rfl]
    decide
  · rw [h.2.1 rfl (by decide)]
    decide

/-- C5: the worker-side handler emits exactly one outcome per received
task — a success message carrying the result when evaluation completes,
and an error message carrying the thrown error's message, stack and name
when anything throws — and the dispatcher only ever posts one task per
call, so no second task is processed. -/
theorem worker_single_outcome (E : Evaluator) (fnCode : List Char) (args : List JSValue) :
    (handleTaskMsgs E fnCode args).length = 1 ∧
    (∀ v, E JSValue.emptyObj (toFunctionExpression fnCode) args = ExecResult.ok v →
      handleTask E fnCode args = { error := none, success := v }) ∧
    (∀ e, E JSValue.emptyObj (toFunctionExpression fnCode) args = ExecResult.thrown e →
      handleTask E fnCode args =
        { error := some { message := e.message, stack := e.stack, name := e.name },
          success := JSValue.undef }) ∧
    (∀ (tOpt : Option Nat) (cls mth : List Char) (evs : List Ev),
      (runC tOpt cls mth evs).sentTasks = 1) := by
  refine ⟨rfl, ?_, ?_, ?_⟩
  · intro v hv
    simp [handleTask, hv]
  · intro e he
    simp [handleTask, he]
  · intro tOpt cls mth evs
    exact (Inv_runC tOpt cls mth evs).2.2

theorem worker_single_outcome_witness :
    handleTask (fun _ _ _ => ExecResult.ok (JSValue.num 3)) ("add(a, b)".data) []
      = { error := none, success := JSValue.num 3 } ∧
    handleTask (fun _ _ _ => ExecResult.thrown (mkError ("bad".data))) ("add(a, b)".data) []
      = { error := some { message := "bad".data, stack := none, name := "Error".data },
          success := JSValue.undef } :=
  ⟨(worker_single_outcome (fun _ _ _ => ExecResult.ok (JSValue.num 3))
      ("add(a, b)".data) []).2.1 _ rfl,
   (worker_single_outcome (fun _ _ _ => ExecResult.thrown (mkError ("bad".data)))
      ("add(a, b)".data) []).2.2.1 _ rfl⟩

/-- C8: a worker `error` event before settlement whose error is named
`ReferenceError` rejects the call with a wrapped error whose message is
`Reference error in worker: ` followed by the original message; any other
error on that event rejects with the error unmodified. -/
theorem reference_error_classified (t : Option Nat) (c m : List Char) (s : CallState)
    (e : JSError) (h : s.isResolved = false) :
    (e.name = "ReferenceError".data →
      (stepC t c m s (Ev.errorEv e)).settled = some (Sum.inr
        (mkError ("Reference error in worker: ".data ++ e.message)))) ∧
    (e.name ≠ "ReferenceError".data →
      (stepC t c m s (Ev.errorEv e)).settled = some (Sum.inr e)) := by
  constructor
  · intro hn
    simp [stepC, hn, rejectOnce_pending s _ h]
  · intro hn
    simp [stepC, hn, rejectOnce_pending s _ h]

theorem reference_error_classified_witness :
    (stepC none ("C".data) ("m".data) (initC none)
        (Ev.errorEv ⟨"x is not defined".data, "ReferenceError".data, none, none⟩)).settled
      = some (Sum.inr
          { message := "Reference error in worker: x is not defined".data,
            name := "Error".data, stack := none, context := none }) ∧
    (stepC none ("C".data) ("m".data) (initC none)
        (Ev.errorEv ⟨"oops".data, "TypeError".data, none, none⟩)).settled
      = some (Sum.inr ⟨"oops".data, "TypeError".data, none, none⟩) := by
  constructor
  · rw [(reference_error_classified none ("C".data) ("m".data) (initC none)
      ⟨"x is not defined".data, "ReferenceError".data, none, none⟩ rfl).1 rfl]
    decide
  · exact (reference_error_classified none ("C".data) ("m".data) (initC none)
      ⟨"oops".data, "TypeError".data, none, none⟩ rfl).2 (by decide)

/-- C9: the single message sent to the worker is exactly the pair of the
method's source text and the call's arguments — nothing of the enclosing
instance; the worker's behavior depends only on the evaluator's action at
the fresh empty `this`-binding; hence two invocations with identical
source and arguments on instances with different private state send
identical tasks and get identical worker-side behavior. -/
theorem worker_isolation (E : Evaluator) (i1 i2 : Instance) (args : List JSValue)
    (h : i1.methodSource = i2.methodSource) :
    sentTask i1 args = (i1.methodSource, args) ∧
    sentTask i1 args = sentTask i2 args ∧
    workerRun E (sentTask i1 args) = workerRun E (sentTask i2 args) ∧
    (∀ E2 : Evaluator,
      (∀ src as, E2 JSValue.emptyObj src as = E JSValue.emptyObj src as) →
      workerRun E2 (sentTask i1 args) = workerRun E (sentTask i1 args)) := by
  refine ⟨rfl, ?_, ?_, ?_⟩
  · simp [sentTask, h]
  · simp [workerRun, sentTask, handleTask, h]
  · intro E2 hE
    simp [workerRun, sentTask, handleTask, hE]

theorem worker_isolation_witness :
    sentTask ⟨"work(x)".data, [JSValue.num 1]⟩ [JSValue.num 7]
      = sentTask ⟨"work(x)".data, [JSValue.num 999]⟩ [JSValue.num 7] ∧
    workerRun (fun _ _ _ => ExecResult.ok JSValue.null)
        (sentTask ⟨"work(x)".data, [JSValue.num 1]⟩ [JSValue.num 7])
      = workerRun (fun _ _ _ => ExecResult.ok JSValue.null)
        (sentTask ⟨"work(x)".data, [JSValue.num 999]⟩ [JSValue.num 7]) :=
  ⟨(worker_isolation (fun _ _ _ => ExecResult.ok JSValue.null)
      ⟨"work(x)".data, [JSValue.num 1]⟩ ⟨"work(x)".data, [JSValue.num 999]⟩
      [JSValue.num 7] rfl).2.1,
   (worker_isolation (fun _ _ _ => ExecResult.ok JSValue.null)
      ⟨"work(x)".data, [JSValue.num 1]⟩ ⟨"work(x)".data, [JSValue.num 999]⟩
      [JSValue.num 7] rfl).2.2.1⟩

/-- C10: a configured timeout of 0 ms behaves exactly like an absent
timeout: the initial states coincide (no timer is armed, since the guard
tests truthiness), every event trace produces the same final state, and
the timer is never armed at any point of any run. -/
theorem timeout_zero_unarmed (c m : List Char) :
    initC (some 0) = initC none ∧
    (∀ evs, runC (some 0) c m evs = runC none c m evs) ∧
    (∀ evs, (runC (some 0) c m evs).timerArmed = false) := by
  have hinit : initC (some 0) = initC none := rfl
  have key : ∀ (evs : List Ev) (s : CallState), s.timerArmed = false →
      runFrom (some 0) c m s evs = runFrom none c m s evs ∧
      (runFrom (some 0) c m s evs).timerArmed = false := by
    intro evs
    induction evs with
    | nil => exact fun s h => ⟨rfl, h⟩
    | cons e rest ih =>
      intro s h
      have h1 : stepC (some 0) c m s e = stepC none c m s e :=
        stepC_tOpt_irrel (some 0) none c m s e h
      have h2 : (stepC (some 0) c m s e).timerArmed = false :=
        stepC_timer_false (some 0) c m s e h
      have hrest := ih (stepC (some 0) c m s e) h2
      constructor
      · show runFrom (some 0) c m (stepC (some 0) c m s e) rest
            = runFrom none c m (stepC none c m s e) rest
        rw [← h1]
        exact hrest.1
      · exact hrest.2
  refine ⟨hinit, ?_, ?_⟩
  · intro evs
    calc runC (some 0) c m evs
        = runFrom none c m (initC (some 0)) evs := (key evs (initC (some 0)) rfl).1
      _ = runC none c m evs := by rw [hinit]; rfl
  · intro evs
    exact (key evs (initC (some 0)) rfl).2

/-! ## Character-class and list lemmas for the normalizer -/

lemma ws_not_word {c : Char} (h : isWS c = true) : isWordChar c = false := by
  simp [isWS] at h
  rcases h with ((((h | h) | h) | h) | h) | h <;> subst h <;> decide

lemma ws_not_identStart {c : Char} (h : isWS c = true) : isIdentStart c = false := by
  simp [isWS] at h
  rcases h with ((((h | h) | h) | h) | h) | h <;> subst h <;> decide

lemma word_not_ws {c : Char} (h : isWordChar c = true) : isWS c = false := by
  cases hw : isWS c
  · rfl
  · rw [ws_not_word hw] at h
    exact absurd h (by simp)

lemma identStart_not_ws {c : Char} (h : isIdentStart c = true) : isWS c = false := by
  cases hw : isWS c
  · rfl
  · rw [ws_not_identStart hw] at h
    exact absurd h (by simp)

lemma word_ne {c : Char} (h : isWordChar c = true) (d : Char)
    (hd : isWordChar d = false) : c ≠ d := by
  intro he
  rw [he, hd] at h
  exact absurd h (by simp)

lemma identStart_ne {c : Char} (h : isIdentStart c = true) (d : Char)
    (hd : isIdentStart d = false) : c ≠ d := by
  intro he
  rw [he, hd] at h
  exact absurd h (by simp)

lemma dropPre_eq_some {t : List Char} : ∀ {s r : List Char},
    dropPre t s = some r ↔ s = t ++ r := by
  induction t with
  | nil =>
    intro s r
    simp [dropPre]
  | cons a as ih =>
    intro s r
    cases s with
    | nil => simp [dropPre]
    | cons b bs =>
      by_cases hab : a = b
      · subst hab
        simp [dropPre, ih]
      · constructor
        · intro h
          rw [dropPre, if_neg (by simpa using hab)] at h
          exact absurd h (by simp)
        · intro h
          have hb : b = a := (List.cons_eq_cons.1 h).1
          exact absurd hb.symm hab

lemma dropPre_append (t r : List Char) : dropPre t (t ++ r) = some r :=
  dropPre_eq_some.2 rfl

lemma dropWhile_all_pos (p : Char → Bool) (l q : List Char)
    (h : ∀ x ∈ l, p x = true) : (l ++ q).dropWhile p = q.dropWhile p := by
  induction l with
  | nil => rfl
  | cons c cs ih =>
    rw [List.cons_append, List.dropWhile_cons_of_pos (h c (by simp))]
    exact ih (fun x hx => h x (List.mem_cons_of_mem c hx))

lemma dropWhile_eq_self_of_head (p : Char → Bool) (q : List Char)
    (h : ∀ y, q.head? = some y → p y = false) : q.dropWhile p = q := by
  cases q with
  | nil => rfl
  | cons c cs => exact List.dropWhile_cons_of_neg (by simp [h c rfl])

lemma head?_dropWhile (p : Char → Bool) (l : List Char) (x : Char)
    (h : (l.dropWhile p).head? = some x) : p x = false := by
  induction l with
  | nil => simp [List.dropWhile] at h
  | cons c cs ih =>
    by_cases hc : p c = true
    · rw [List.dropWhile_cons_of_pos hc] at h
      exact ih h
    · rw [List.dropWhile_cons_of_neg (by simpa using hc)] at h
      have : c = x := by simpa using h
      subst this
      simpa using hc

lemma getLast?_dropWhile_ne_nil (p : Char → Bool) (l : List Char)
    (h : l.dropWhile p ≠ []) : (l.dropWhile p).getLast? = l.getLast? := by
  induction l with
  | nil => exact absurd rfl h
  | cons c cs ih =>
    by_cases hc : p c = true
    · rw [List.dropWhile_cons_of_pos hc] at h ⊢
      cases cs with
      | nil => simp [List.dropWhile] at h
      | cons b bs =>
        rw [ih h]
        exact List.getLast?_cons_cons.symm
    · rw [List.dropWhile_cons_of_neg (by simpa using hc)]

lemma mem_trimJS {x : Char} {s : List Char} (h : x ∈ trimJS s) : x ∈ s := by
  unfold trimJS trimL at h
  have h1 : x ∈ (s.dropWhile isWS).reverse :=
    (List.dropWhile_sublist isWS).subset (List.mem_reverse.1 h)
  exact (List.dropWhile_sublist isWS).subset (List.mem_reverse.1 h1)

lemma trimJS_eq_self (l : List Char)
    (hh : ∀ y, l.head? = some y → isWS y = false)
    (hl : ∀ y, l.getLast? = some y → isWS y = false) : trimJS l = l := by
  have h1 : trimL l = l := dropWhile_eq_self_of_head isWS l hh
  unfold trimJS
  rw [h1]
  have h2 : l.reverse.dropWhile isWS = l.reverse :=
    dropWhile_eq_self_of_head isWS l.reverse
      (fun y hy => hl y (by rwa [List.head?_reverse] at hy))
  rw [h2, List.reverse_reverse]

lemma trimJS_getLast (s : List Char) (y : Char)
    (h : (trimJS s).getLast? = some y) : isWS y = false := by
  unfold trimJS at h
  rw [List.getLast?_reverse] at h
  exact head?_dropWhile isWS _ y h

lemma dropWhile_elem_lparen (s : List Char) (h : s.elem '(' = true) :
    ∃ r, s.dropWhile (fun c => !(c == '(')) = '(' :: r := by
  induction s with
  | nil => simp [List.elem] at h
  | cons c cs ih =>
    by_cases hc : c = '('
    · subst hc
      exact ⟨cs, by rw [List.dropWhile_cons_of_neg (by simp)]⟩
    · have hcs : cs.elem '(' = true := by
        have hm : '(' ∈ c :: cs := List.elem_iff.1 h
        rcases List.mem_cons.1 hm with he | hm2
        · exact absurd he.symm hc
        · exact List.elem_iff.2 hm2
      obtain ⟨r, hr⟩ := ih hcs
      exact ⟨r, by rw [List.dropWhile_cons_of_pos (by simpa using hc), hr]⟩

/-! ## The regexes reject class-method-shaped prefixes -/

lemma ws_ne {c : Char} (h : isWS c = true) (d : Char) (hd : isWS d = false) : c ≠ d := by
  intro he
  rw [he, hd] at h
  exact absurd h (by simp)

/-- If a word-only pattern matches at the front of `name ++ spaces ++ (…`,
it must be carved entirely out of the name part. -/
lemma dropPre_block (F n w p' r : List Char)
    (hF : ∀ c ∈ F, isWordChar c = true)
    (hw : ∀ c ∈ w, isWS c = true)
    (h : dropPre F (n ++ (w ++ '(' :: p')) = some r) :
    ∃ mm, n = F ++ mm ∧ r = mm ++ (w ++ '(' :: p') := by
  have heq : n ++ (w ++ '(' :: p') = F ++ r := dropPre_eq_some.1 h
  rcases List.append_eq_append_iff.1 heq with ⟨a', ha1, ha2⟩ | ⟨c', hc1, hc2⟩
  · cases a' with
    | nil =>
      refine ⟨[], by simpa using ha1.symm, ?_⟩
      simpa using ha2.symm
    | cons y ys =>
      exfalso
      have hyw : isWordChar y = true := hF y (by rw [ha1]; simp)
      cases w with
      | nil =>
        have hy : '(' = y := by simpa using congrArg List.head? ha2
        exact word_ne hyw '(' (by decide) hy.symm
      | cons z zs =>
        have hz : z = y := by simpa using congrArg List.head? ha2
        have hzw : isWS z = true := hw z (by simp)
        rw [hz] at hzw
        rw [ws_not_word hzw] at hyw
        exact absurd hyw (by simp)
  · exact ⟨c', hc1, by rw [hc2]⟩

lemma matchFunctionAt_block (c0 : Char) (m w p' : List Char)
    (hm : ∀ c ∈ m, isWordChar c = true)
    (hne : c0 :: m ≠ "function".data) :
    (∀ c ∈ w, isWS c = true) →
    matchFunctionAt ((c0 :: m) ++ (w ++ '(' :: p')) = false := by
  intro hw
  unfold matchFunctionAt
  cases hdp : dropPre ("function".data) ((c0 :: m) ++ (w ++ '(' :: p')) with
  | none => rfl
  | some r =>
    obtain ⟨mm, hm1, hm2⟩ := dropPre_block ("function".data) (c0 :: m) w p' r
      (by decide) hw hdp
    cases mm with
    | nil => exact absurd (by simpa using hm1) hne
    | cons x xs =>
      have hx : isWordChar x = true := by
        apply hm
        have htail : m = "unction".data ++ x :: xs := by
          have := congrArg List.tail hm1
          simpa using this
        rw [htail]
        simp
      rw [hm2, List.cons_append]
      show (isWS x || x == '(') = false
      rw [word_not_ws hx]
      simp [word_ne hx '(' (by decide)]

lemma matchFunctionAt_lparen (rest : List Char) : matchFunctionAt ('(' :: rest) = false := by
  unfold matchFunctionAt
  rw [show dropPre ("function".data) ('(' :: rest) = none from rfl]

lemma matchAsyncFn_block (c0 : Char) (m w p' : List Char)
    (hm : ∀ c ∈ m, isWordChar c = true)
    (hw : ∀ c ∈ w, isWS c = true) :
    matchAsyncFn ((c0 :: m) ++ (w ++ '(' :: p')) = false := by
  unfold matchAsyncFn
  cases hdp : dropPre ("async".data) ((c0 :: m) ++ (w ++ '(' :: p')) with
  | none => rfl
  | some r =>
    obtain ⟨mm, hm1, hm2⟩ := dropPre_block ("async".data) (c0 :: m) w p' r
      (by decide) hw hdp
    cases mm with
    | cons x xs =>
      have hx : isWordChar x = true := by
        apply hm
        have htail : m = "sync".data ++ x :: xs := by
          have := congrArg List.tail hm1
          simpa using this
        rw [htail]
        simp
      rw [hm2, List.cons_append]
      show (isWS x && matchFunctionAt (trimL (xs ++ (w ++ '(' :: p')))) = false
      rw [word_not_ws hx]
      rfl
    | nil =>
      cases w with
      | nil =>
        rw [hm2]
        show (isWS '(' && matchFunctionAt (trimL p')) = false
        rfl
      | cons z zs =>
        rw [hm2]
        show (isWS z && matchFunctionAt (trimL (zs ++ '(' :: p'))) = false
        have htr : trimL (zs ++ '(' :: p') = '(' :: p' := by
          unfold trimL
          rw [dropWhile_all_pos isWS zs ('(' :: p') (fun x hx => hw x (by simp [hx]))]
          exact List.dropWhile_cons_of_neg (by decide)
        rw [htr, matchFunctionAt_lparen]
        exact Bool.and_false _

lemma matchFnExprRegex_block (c0 : Char) (m w p' : List Char)
    (hm : ∀ c ∈ m, isWordChar c = true)
    (hw : ∀ c ∈ w, isWS c = true)
    (hne : c0 :: m ≠ "function".data) :
    matchFnExprRegex ((c0 :: m) ++ (w ++ '(' :: p')) = false := by
  unfold matchFnExprRegex
  rw [matchAsyncFn_block c0 m w p' hm hw, matchFunctionAt_block c0 m w p' hm hne hw]
  rfl

lemma arrowTail_block (m w p' : List Char)
    (hm : ∀ c ∈ m, isWordChar c = true)
    (hw : ∀ c ∈ w, isWS c = true) :
    arrowTail (m ++ (w ++ '(' :: p')) = false := by
  unfold arrowTail
  rw [dropWhile_all_pos isWordChar m (w ++ '(' :: p') hm]
  have hstop : (w ++ '(' :: p').dropWhile isWordChar = w ++ '(' :: p' := by
    apply dropWhile_eq_self_of_head
    intro y hy
    cases w with
    | nil =>
      have : y = '(' := by simpa using hy.symm
      subst this
      decide
    | cons z zs =>
      have : y = z := by simpa using hy.symm
      subst this
      exact ws_not_word (hw y (by simp))
  rw [hstop]
  have htr : trimL (w ++ '(' :: p') = '(' :: p' := by
    unfold trimL
    rw [dropWhile_all_pos isWS w ('(' :: p') hw]
    exact List.dropWhile_cons_of_neg (by decide)
  rw [htr]
  rfl

lemma matchArrowRegex_block (c0 : Char) (m w p' : List Char)
    (hc0 : isIdentStart c0 = true)
    (hm : ∀ c ∈ m, isWordChar c = true)
    (hw : ∀ c ∈ w, isWS c = true) :
    matchArrowRegex ((c0 :: m) ++ (w ++ '(' :: p')) = false := by
  rw [List.cons_append]
  show (c0 == '(' || (isIdentStart c0 && arrowTail (m ++ (w ++ '(' :: p')))) = false
  rw [arrowTail_block m w p' hm hw]
  simp [identStart_ne hc0 '(' (by decide)]

lemma matchFnExprRegex_asyncBlock (c0 : Char) (m w p' : List Char)
    (hc0 : isIdentStart c0 = true)
    (hm : ∀ c ∈ m, isWordChar c = true)
    (hw : ∀ c ∈ w, isWS c = true)
    (hne : c0 :: m ≠ "function".data) :
    matchFnExprRegex ("async ".data ++ ((c0 :: m) ++ (w ++ '(' :: p'))) = false := by
  unfold matchFnExprRegex
  have h1 : matchAsyncFn ("async ".data ++ ((c0 :: m) ++ (w ++ '(' :: p'))) = false := by
    unfold matchAsyncFn
    have hdp : dropPre ("async".data) ("async ".data ++ ((c0 :: m) ++ (w ++ '(' :: p')))
        = some (' ' :: ((c0 :: m) ++ (w ++ '(' :: p'))) :=
      dropPre_append ("async".data) (' ' :: ((c0 :: m) ++ (w ++ '(' :: p')))
    rw [hdp]
    show (isWS ' ' && matchFunctionAt (trimL ((c0 :: m) ++ (w ++ '(' :: p')))) = false
    have htr : trimL ((c0 :: m) ++ (w ++ '(' :: p')) = (c0 :: m) ++ (w ++ '(' :: p') := by
      unfold trimL
      rw [List.cons_append]
      exact List.dropWhile_cons_of_neg (by simp [identStart_not_ws hc0])
    rw [htr, matchFunctionAt_block c0 m w p' hm hne hw]
    rfl
  have h2 : matchFunctionAt ("async ".data ++ ((c0 :: m) ++ (w ++ '(' :: p'))) = false := by
    unfold matchFunctionAt
    rw [show dropPre ("function".data) ("async ".data ++ ((c0 :: m) ++ (w ++ '(' :: p')))
        = none from rfl]
  rw [h1, h2]
  rfl

lemma matchArrowRegex_asyncBlock (c0 : Char) (m w p' : List Char)
    (hc0 : isIdentStart c0 = true) :
    matchArrowRegex ("async ".data ++ ((c0 :: m) ++ (w ++ '(' :: p'))) = false := by
  show ('a' == '(' ||
    (isIdentStart 'a' && arrowTail ("sync ".data ++ ((c0 :: m) ++ (w ++ '(' :: p'))))) = false
  have hat : arrowTail ("sync ".data ++ ((c0 :: m) ++ (w ++ '(' :: p'))) = false := by
    unfold arrowTail
    have hd1 : ("sync ".data ++ ((c0 :: m) ++ (w ++ '(' :: p'))).dropWhile isWordChar
        = ' ' :: ((c0 :: m) ++ (w ++ '(' :: p')) := by
      show ("sync".data ++ (' ' :: ((c0 :: m) ++ (w ++ '(' :: p')))).dropWhile isWordChar = _
      rw [dropWhile_all_pos isWordChar ("sync".data) _ (by decide)]
      exact List.dropWhile_cons_of_neg (by decide)
    rw [hd1]
    have hd2 : trimL (' ' :: ((c0 :: m) ++ (w ++ '(' :: p')))
        = (c0 :: m) ++ (w ++ '(' :: p') := by
      unfold trimL
      rw [List.dropWhile_cons_of_pos (by decide), List.cons_append]
      exact List.dropWhile_cons_of_neg (by simp [identStart_not_ws hc0])
    rw [hd2, List.cons_append]
    show (('=' == c0) && startsWithL (">".data) (m ++ (w ++ '(' :: p'))) = false
    rw [show ('=' == c0) = false from by
      simp [Ne.symm (identStart_ne hc0 '=' (by decide))]]
    rfl
  rw [hat]
  rfl

/-! ## Fixed points of the normalizer -/

/-- Unfolding of `toFunctionExpression` with the lets substituted. -/
lemma tfe_unfold (s : List Char) :
    toFunctionExpression s =
      if matchFnExprRegex (trimJS s) || matchArrowRegex (trimJS s) then s
      else if (trimJS s).elem '(' then
        (if startsWithL ("async ".data) (trimJS s) then "async function".data
         else "function".data) ++ (trimJS s).dropWhile (fun c => !(c == '('))
      else s := rfl

lemma tfe_of_regex (s : List Char)
    (h : (matchFnExprRegex (trimJS s) || matchArrowRegex (trimJS s)) = true) :
    toFunctionExpression s = s := by
  rw [tfe_unfold s, if_pos h]

lemma tfe_of_noParen (s : List Char) (h : s.elem '(' = false) :
    toFunctionExpression s = s := by
  rw [tfe_unfold s]
  by_cases hR : (matchFnExprRegex (trimJS s) || matchArrowRegex (trimJS s)) = true
  · rw [if_pos hR]
  · rw [if_neg hR]
    have h2 : (trimJS s).elem '(' = false := by
      cases he : (trimJS s).elem '('
      · rfl
      · have hmem : '(' ∈ s := mem_trimJS (List.elem_iff.1 he)
        have htrue := List.elem_iff.2 hmem
        rw [h] at htrue
        exact absurd htrue (by simp)
    rw [if_neg (by rw [h2]; simp)]

lemma matchFunctionAt_fnParen (r : List Char) :
    matchFunctionAt ("function".data ++ '(' :: r) = true := by
  unfold matchFunctionAt
  rw [dropPre_append]
  rfl

lemma tfe_fnPrefix_fixed (r : List Char)
    (hlast : ∀ y, ('(' :: r).getLast? = some y → isWS y = false) :
    toFunctionExpression ("function".data ++ '(' :: r) = "function".data ++ '(' :: r := by
  apply tfe_of_regex
  have htr : trimJS ("function".data ++ '(' :: r) = "function".data ++ '(' :: r := by
    apply trimJS_eq_self
    · intro y hy
      rw [show ("function".data ++ '(' :: r) = 'f' :: ("unction".data ++ '(' :: r)
        from rfl] at hy
      have : y = 'f' := by simpa using hy.symm
      subst this
      decide
    · intro y hy
      rw [List.getLast?_append_of_ne_nil ("function".data) (by simp)] at hy
      exact hlast y hy
  rw [htr]
  unfold matchFnExprRegex
  rw [matchFunctionAt_fnParen]
  simp

lemma tfe_asyncFnPrefix_fixed (r : List Char)
    (hlast : ∀ y, ('(' :: r).getLast? = some y → isWS y = false) :
    toFunctionExpression ("async function".data ++ '(' :: r)
      = "async function".data ++ '(' :: r := by
  apply tfe_of_regex
  have htr : trimJS ("async function".data ++ '(' :: r)
      = "async function".data ++ '(' :: r := by
    apply trimJS_eq_self
    · intro y hy
      rw [show ("async function".data ++ '(' :: r)
          = 'a' :: ("sync function".data ++ '(' :: r) from rfl] at hy
      have : y = 'a' := by simpa using hy.symm
      subst this
      decide
    · intro y hy
      rw [List.getLast?_append_of_ne_nil ("async function".data) (by simp)] at hy
      exact hlast y hy
  rw [htr]
  unfold matchFnExprRegex
  have h1 : matchAsyncFn ("async function".data ++ '(' :: r) = true := by
    unfold matchAsyncFn
    have hdp : dropPre ("async".data) ("async function".data ++ '(' :: r)
        = some (' ' :: ("function".data ++ '(' :: r)) :=
      dropPre_append ("async".data) (' ' :: ("function".data ++ '(' :: r))
    rw [hdp]
    show (isWS ' ' && matchFunctionAt (trimL ("function".data ++ '(' :: r))) = true
    have htr2 : trimL ("function".data ++ '(' :: r) = "function".data ++ '(' :: r := by
      unfold trimL
      rw [show ("function".data ++ '(' :: r) = 'f' :: ("unction".data ++ '(' :: r)
        from rfl]
      exact List.dropWhile_cons_of_neg (by decide)
    rw [htr2, matchFunctionAt_fnParen]
    rfl
  rw [h1]
  rfl

lemma tfe_idem (s : List Char) :
    toFunctionExpression (toFunctionExpression s) = toFunctionExpression s := by
  by_cases hR : (matchFnExprRegex (trimJS s) || matchArrowRegex (trimJS s)) = true
  · rw [tfe_of_regex s hR]
    exact tfe_of_regex s hR
  · by_cases hE : (trimJS s).elem '(' = true
    · obtain ⟨r, hr⟩ := dropWhile_elem_lparen (trimJS s) hE
      have hO : toFunctionExpression s =
          (if startsWithL ("async ".data) (trimJS s) then "async function".data
           else "function".data) ++ '(' :: r := by
        rw [tfe_unfold s, if_neg hR, if_pos hE, hr]
      have hlast : ∀ y, ('(' :: r).getLast? = some y → isWS y = false := by
        intro y hy
        have hne : (trimJS s).dropWhile (fun c => !(c == '(')) ≠ [] := by
          rw [hr]
          simp
        have hgl := getLast?_dropWhile_ne_nil (fun c => !(c == '(')) (trimJS s) hne
        rw [hr] at hgl
        exact trimJS_getLast s y (by rw [← hgl]; exact hy)
      cases hA : startsWithL ("async ".data) (trimJS s)
      · rw [hA] at hO
        simp only [Bool.false_eq_true, if_false] at hO
        rw [hO]
        exact tfe_fnPrefix_fixed r hlast
      · rw [hA] at hO
        simp only [if_true] at hO
        rw [hO]
        exact tfe_asyncFnPrefix_fixed r hlast
    · have hE' : (trimJS s).elem '(' = false := by simpa using hE
      have hfix : toFunctionExpression s = s := by
        rw [tfe_unfold s, if_neg hR, if_neg (by rw [hE']; simp)]
      rw [hfix]
      exact hfix

/-- C6: on input shaped as a class-method body — an optional `async `
qualifier, a method name (identifier, not the bare `function` keyword),
optional whitespace, then the parameter list opening at the first `(` and
running to the body's end — the output is `function` (prefixed by `async `
exactly when the input began with `async `) followed by the input's text
from its first `(` onward, preserved verbatim. -/
theorem toFunctionExpression_classMethod
    (a : List Char) (c0 : Char) (m w p' : List Char)
    (ha : a = [] ∨ a = "async ".data)
    (hc0 : isIdentStart c0 = true)
    (hm : ∀ x ∈ m, isWordChar x = true)
    (hfn : c0 :: m ≠ "function".data)
    (hw : ∀ x ∈ w, isWS x = true)
    (hlast : isWS (p'.getLastD '(') = false) :
    (a ++ ((c0 :: m) ++ (w ++ '(' :: p'))).dropWhile (fun c => !(c == '(')) = '(' :: p' ∧
    toFunctionExpression (a ++ ((c0 :: m) ++ (w ++ '(' :: p')))
      = (if startsWithL ("async ".data) (a ++ ((c0 :: m) ++ (w ++ '(' :: p')))
          then "async ".data else []) ++ ("function".data ++ '(' :: p') := by
  have hpred : ∀ (l : List Char), (∀ x ∈ l, ¬ x = '(') → ∀ q : List Char,
      (l ++ q).dropWhile (fun c => !(c == '(')) = q.dropWhile (fun c => !(c == '(')) := by
    intro l hl q
    exact dropWhile_all_pos _ l q (fun x hx => by simp [hl x hx])
  have hdrop : (a ++ ((c0 :: m) ++ (w ++ '(' :: p'))).dropWhile (fun c => !(c == '('))
      = '(' :: p' := by
    have h1 := hpred a
      (by rcases ha with h | h <;> subst h
          · simp
          · decide)
      ((c0 :: m) ++ (w ++ '(' :: p'))
    have h2 := hpred (c0 :: m)
      (by intro x hx
          rcases List.mem_cons.1 hx with he | hm2
          · subst he
            exact identStart_ne hc0 '(' (by decide)
          · exact word_ne (hm x hm2) '(' (by decide))
      (w ++ '(' :: p')
    have h3 := hpred w (fun x hx => ws_ne (hw x hx) '(' (by decide)) ('(' :: p')
    rw [h1, h2, h3]
    exact List.dropWhile_cons_of_neg (by decide)
  have helem : (a ++ ((c0 :: m) ++ (w ++ '(' :: p'))).elem '(' = true :=
    List.elem_iff.2 (by simp)
  have htrim : trimJS (a ++ ((c0 :: m) ++ (w ++ '(' :: p')))
      = a ++ ((c0 :: m) ++ (w ++ '(' :: p')) := by
    apply trimJS_eq_self
    · intro y hy
      rcases ha with h | h <;> subst h
      · have : y = c0 := by simpa using hy.symm
        subst this
        exact identStart_not_ws hc0
      · rw [show ("async ".data ++ ((c0 :: m) ++ (w ++ '(' :: p')))
            = 'a' :: ("sync ".data ++ ((c0 :: m) ++ (w ++ '(' :: p'))) from rfl] at hy
        have : y = 'a' := by simpa using hy.symm
        subst this
        decide
    · intro y hy
      have h1 : (a ++ ((c0 :: m) ++ (w ++ '(' :: p'))).getLast? = ('(' :: p').getLast? := by
        rw [List.getLast?_append_of_ne_nil a (by simp),
            List.getLast?_append_of_ne_nil (c0 :: m) (by simp),
            List.getLast?_append_of_ne_nil w (by simp)]
      rw [h1] at hy
      simp only [List.getLast?_cons, Option.some.injEq] at hy
      rw [← hy, ← List.getLastD_eq_getLast?]
      exact hlast
  have hregex1 : matchFnExprRegex (a ++ ((c0 :: m) ++ (w ++ '(' :: p'))) = false := by
    rcases ha with h | h <;> subst h
    · simpa using matchFnExprRegex_block c0 m w p' hm hw hfn
    · exact matchFnExprRegex_asyncBlock c0 m w p' hc0 hm hw hfn
  have hregex2 : matchArrowRegex (a ++ ((c0 :: m) ++ (w ++ '(' :: p'))) = false := by
    rcases ha with h | h <;> subst h
    · simpa using matchArrowRegex_block c0 m w p' hc0 hm hw
    · exact matchArrowRegex_asyncBlock c0 m w p' hc0
  refine ⟨hdrop, ?_⟩
  rw [tfe_unfold (a ++ ((c0 :: m) ++ (w ++ '(' :: p'))), htrim, hregex1, hregex2,
    if_neg (by simp), if_pos helem, hdrop]
  cases hA : startsWithL ("async ".data) (a ++ ((c0 :: m) ++ (w ++ '(' :: p'))) <;> rfl

theorem toFunctionExpression_classMethod_witness :
    ([] ++ (('a' :: "dd".data) ++ ([] ++ '(' :: "a, b) \x7b return a + b \x7d".data))).dropWhile
        (fun c => !(c == '(')) = '(' :: "a, b) \x7b return a + b \x7d".data ∧
    toFunctionExpression
        ([] ++ (('a' :: "dd".data) ++ ([] ++ '(' :: "a, b) \x7b return a + b \x7d".data)))
      = (if startsWithL ("async ".data)
            ([] ++ (('a' :: "dd".data) ++ ([] ++ '(' :: "a, b) \x7b return a + b \x7d".data)))
          then "async ".data else [])
        ++ ("function".data ++ '(' :: "a, b) \x7b return a + b \x7d".data) :=
  toFunctionExpression_classMethod [] 'a' ("dd".data) [] ("a, b) \x7b return a + b \x7d".data)
    (Or.inl rfl) (by decide) (by decide) (by decide) (by decide) (by decide)

/-- C7: the normalizer is a no-op fixed point on already-standalone text
(text whose trimmed form matches the function-expression or arrow regex),
returns any input without a `(` unchanged, and is idempotent. -/
theorem toFunctionExpression_noop_idem :
    (∀ s, (matchFnExprRegex (trimJS s) || matchArrowRegex (trimJS s)) = true →
      toFunctionExpression s = s) ∧
    (∀ s : List Char, s.elem '(' = false → toFunctionExpression s = s) ∧
    (∀ s, toFunctionExpression (toFunctionExpression s) = toFunctionExpression s) :=
  ⟨tfe_of_regex, tfe_of_noParen, tfe_idem⟩

theorem toFunctionExpression_noop_idem_witness :
    toFunctionExpression ("function add(a, b) \x7b return a + b \x7d".data)
      = "function add(a, b) \x7b return a + b \x7d".data ∧
    toFunctionExpression ("noParens".data) = "noParens".data ∧
    toFunctionExpression (toFunctionExpression ("add(a, b) \x7b return a + b \x7d".data))
      = toFunctionExpression ("add(a, b) \x7b return a + b \x7d".data) :=
  ⟨toFunctionExpression_noop_idem.1 _ (by decide),
   toFunctionExpression_noop_idem.2.1 _ (by decide),
   toFunctionExpression_noop_idem.2.2 _⟩

end ThreadDecorator
